import Mathlib

/-!
Shallow embedding of the visual-search server (`src/server.js`) and proofs
about its half-float decoder, embedding store loader, image preprocessor,
inference-adapter plumbing and brute-force top-K similarity search.

JavaScript numbers are modelled as exact rationals (`ℚ`); byte buffers as
lists of naturals; the mutable `Float32Array` tensors as functions `ℕ → ℚ`
updated pointwise, matching the single-writer loops of the source.
-/

namespace VisualSearch

/-! ### Half-precision decoder (src/server.js lines 38–44)

The decoder can produce NaN and signed infinities, which have no rational
counterpart, so decoded values live in `HalfVal`. -/

/-- Value of a decoded half-precision word: NaN, a signed infinity
(`neg = true` for `-Infinity`), or a finite rational. -/
inductive HalfVal where
  | nan : HalfVal
  | inf : Bool → HalfVal
  | fin : ℚ → HalfVal
  deriving DecidableEq

/-- The decode expression of `init` (lines 40–43): extract sign, exponent and
mantissa by mask-and-shift from the 16-bit word `h` and branch on the
exponent exactly as the source's nested conditional does. -/
def decodeHalf (h : ℕ) : HalfVal :=
  let s := (h &&& 0x8000) >>> 15
  let e := (h &&& 0x7C00) >>> 10
  let m := h &&& 0x03FF
  if e = 0 then .fin ((if s = 0 then (1 : ℚ) else -1) * (2 : ℚ) ^ (-14 : ℤ) * ((m : ℚ) / 1024))
  else if e = 31 then (if m ≠ 0 then .nan else .inf (s != 0))
  else .fin ((if s = 0 then (1 : ℚ) else -1) * (2 : ℚ) ^ ((e : ℤ) - 15) * (1 + (m : ℚ) / 1024))

/-- The half-precision value as the specification states it, in terms of the
already-separated sign bit `s`, 5-bit exponent `e` and 10-bit mantissa `m`:
subnormal for `e = 0`, infinity or NaN for `e = 31`, normal otherwise. -/
def halfSpec (s e m : ℕ) : HalfVal :=
  if e = 0 then .fin ((if s = 0 then (1 : ℚ) else -1) * (2 : ℚ) ^ (-14 : ℤ) * ((m : ℚ) / 1024))
  else if e = 31 then (if m = 0 then .inf (s != 0) else .nan)
  else .fin ((if s = 0 then (1 : ℚ) else -1) * (2 : ℚ) ^ ((e : ℤ) - 15) * (1 + (m : ℚ) / 1024))

/-- Right shift distributes over bitwise and. -/
lemma shiftRight_and_distrib (x y n : ℕ) : (x &&& y) >>> n = (x >>> n) &&& (y >>> n) := by
  apply Nat.eq_of_testBit_eq
  intro i
  simp [Nat.testBit_shiftRight, Nat.testBit_and]

lemma extract_sign {s e m : ℕ} (hs : s < 2) (he : e < 32) (hm : m < 1024) :
    ((s * 2 ^ 15 + e * 2 ^ 10 + m) &&& 0x8000) >>> 15 = s := by
  rw [shiftRight_and_distrib]
  have h1 : (0x8000 : ℕ) >>> 15 = 2 ^ 1 - 1 := by decide
  rw [h1, Nat.and_pow_two_sub_one_eq_mod, Nat.shiftRight_eq_div_pow]
  have : (2 : ℕ) ^ 15 = 32768 := by norm_num
  rw [this]
  have : (2 : ℕ) ^ 10 = 1024 := by norm_num
  rw [this]
  have : (2 : ℕ) ^ 1 = 2 := by norm_num
  rw [this]
  omega

lemma extract_exp {s e m : ℕ} (_hs : s < 2) (he : e < 32) (hm : m < 1024) :
    ((s * 2 ^ 15 + e * 2 ^ 10 + m) &&& 0x7C00) >>> 10 = e := by
  rw [shiftRight_and_distrib]
  have h1 : (0x7C00 : ℕ) >>> 10 = 2 ^ 5 - 1 := by decide
  rw [h1, Nat.and_pow_two_sub_one_eq_mod, Nat.shiftRight_eq_div_pow]
  have : (2 : ℕ) ^ 15 = 32768 := by norm_num
  rw [this]
  have : (2 : ℕ) ^ 10 = 1024 := by norm_num
  rw [this]
  have : (2 : ℕ) ^ 5 = 32 := by norm_num
  rw [this]
  omega

lemma extract_mantissa {s e m : ℕ} (_hs : s < 2) (_he : e < 32) (hm : m < 1024) :
    (s * 2 ^ 15 + e * 2 ^ 10 + m) &&& 0x03FF = m := by
  have h1 : (0x03FF : ℕ) = 2 ^ 10 - 1 := by norm_num
  rw [h1, Nat.and_pow_two_sub_one_eq_mod]
  have : (2 : ℕ) ^ 15 = 32768 := by norm_num
  rw [this]
  have : (2 : ℕ) ^ 10 = 1024 := by norm_num
  rw [this]
  omega

/-- C2: the half-float decoder is total, and on every 16-bit word — written as
sign bit `s`, exponent `e` and mantissa `m` — it returns the value the
specification's three decoding rules prescribe: `sign(s)·2⁻¹⁴·(m/1024)` when
`e = 0`, `sign(s)·∞` when `e = 31, m = 0`, NaN when `e = 31, m ≠ 0`, and
`sign(s)·2^(e−15)·(1 + m/1024)` otherwise. -/
theorem decodeHalf_matches_spec (s e m : ℕ) (hs : s < 2) (he : e < 32) (hm : m < 1024) :
    decodeHalf (s * 2 ^ 15 + e * 2 ^ 10 + m) = halfSpec s e m := by
  rw [decodeHalf]
  simp only [extract_sign hs he hm, extract_exp hs he hm, extract_mantissa hs he hm, halfSpec]
  by_cases h0 : e = 0
  · simp [h0]
  · by_cases h31 : e = 31
    · by_cases hm0 : m = 0 <;> simp [h0, h31, hm0]
    · simp [h0, h31]

/-- Concrete instance of `decodeHalf_matches_spec`: the word `0x3C00`
(`s = 0`, `e = 15`, `m = 0`) decodes to the spec value (which is `1`). -/
theorem decodeHalf_matches_spec_witness :
    (0 : ℕ) < 2 ∧ (15 : ℕ) < 32 ∧ (0 : ℕ) < 1024 ∧
      decodeHalf (0 * 2 ^ 15 + 15 * 2 ^ 10 + 0) = halfSpec 0 15 0 :=
  ⟨by norm_num, by norm_num, by norm_num,
    decodeHalf_matches_spec 0 15 0 (by norm_num) (by norm_num) (by norm_num)⟩

/-! ### Catalog store and top-K search (src/server.js lines 18, 35–45, 61–70) -/

/-- One entry of `vs-meta.json`: the 4-tuple `[id, handle, title, imageUrl]`. -/
structure ProductRecord where
  id : String
  handle : String
  title : String
  imageUrl : String
  deriving DecidableEq, Inhabited

/-- One element of the response array built on line 69. The `score` field is
the rational value denoted by the decimal string `(scores[i]*100).toFixed(1)`. -/
structure RankedResult where
  id : String
  handle : String
  title : String
  img : String
  score : ℚ
  deriving DecidableEq

/-- The module globals `meta` and `embeddings` (line 18) after `init`:
the metadata sequence and the dense row-major `N × 512` matrix, the latter
modelled as a function from flat index to value. -/
structure Store where
  meta : List ProductRecord
  embeddings : ℕ → ℚ

/-- JavaScript's `Number.prototype.toFixed(1)` on exact rationals: round to
the nearest tenth, ties towards the larger value. -/
def toFixed1 (q : ℚ) : ℚ := (⌊q * 10 + 1 / 2⌋ : ℤ) / 10

/-- The inner loop of `search` (lines 64–66): dot product of the query with
the 512-wide row starting at flat offset `off`. -/
def dotProduct (query emb : ℕ → ℚ) (off : ℕ) : ℚ :=
  ∑ j ∈ Finset.range 512, query j * emb (off + j)

/-- The per-item score array of `search` (lines 62–67). -/
def scores (st : Store) (query : ℕ → ℚ) : ℕ → ℚ :=
  fun i => dotProduct query st.embeddings (i * 512)

/-- Line 68: `[...scores.keys()].sort((a, b) => scores[b] - scores[a])` —
all catalog indices, sorted by descending score.  JavaScript's
`Array.prototype.sort` is stable, which `List.mergeSort` models. -/
def rankIndices (sc : ℕ → ℚ) (n : ℕ) : List ℕ :=
  (List.range n).mergeSort (fun a b => decide (sc b ≤ sc a))

/-- Line 69: build one response object from a catalog index. -/
def mkResult (st : Store) (sc : ℕ → ℚ) (i : ℕ) : RankedResult :=
  { id := (st.meta.getD i default).id
    handle := (st.meta.getD i default).handle
    title := (st.meta.getD i default).title
    img := (st.meta.getD i default).imageUrl
    score := toFixed1 (sc i * 100) }

/-- `search(query, topK)` (lines 61–70; the serving layer calls it with the
default `topK = 20`): score every item, sort indices by descending score,
keep the first `topK` and map them to response objects. -/
def search (st : Store) (query : ℕ → ℚ) (topK : ℕ) : List RankedResult :=
  ((rankIndices (scores st query) st.meta.length).take topK).map (mkResult st (scores st query))

/-- C1: `search` returns exactly `min k catalogSize` results, for every
store, query and `k ≥ 0`; `k = 0` gives the empty list and `k` larger than
the catalog gives every item, never an error. -/
theorem search_length_eq_min (st : Store) (query : ℕ → ℚ) (k : ℕ) :
    (search st query k).length = min k st.meta.length := by
  simp [search, rankIndices]

lemma cmp_trans (sc : ℕ → ℚ) : ∀ a b c : ℕ,
    decide (sc b ≤ sc a) → decide (sc c ≤ sc b) → decide (sc c ≤ sc a) := by
  intro a b c hab hbc
  simp only [decide_eq_true_eq] at *
  exact le_trans hbc hab

lemma cmp_total (sc : ℕ → ℚ) : ∀ a b : ℕ,
    decide (sc b ≤ sc a) || decide (sc a ≤ sc b) := by
  intro a b
  simp only [Bool.or_eq_true, decide_eq_true_eq]
  exact le_total (sc b) (sc a)

lemma toFixed1_mono {a b : ℚ} (h : a ≤ b) : toFixed1 a ≤ toFixed1 b := by
  unfold toFixed1
  have hf : ⌊a * 10 + 1 / 2⌋ ≤ ⌊b * 10 + 1 / 2⌋ := Int.floor_le_floor (by linarith)
  have hq : ((⌊a * 10 + 1 / 2⌋ : ℤ) : ℚ) ≤ ((⌊b * 10 + 1 / 2⌋ : ℤ) : ℚ) := by exact_mod_cast hf
  linarith

/-- The ranking produced on line 68 is pairwise non-increasing in score. -/
lemma rankIndices_sorted (sc : ℕ → ℚ) (n : ℕ) :
    (rankIndices sc n).Pairwise (fun i j => sc j ≤ sc i) := by
  have h : ((List.range n).mergeSort (fun a b => decide (sc b ≤ sc a))).Pairwise
      (fun a b => decide (sc b ≤ sc a) = true) :=
    List.sorted_mergeSort (cmp_trans sc) (cmp_total sc) (List.range n)
  exact h.imp (by intro a b hab; simpa using hab)

/-- C3: for every store, query and `k`, the sequence `search` returns is
sorted by score in non-increasing order of position: each result's score is
greater than or equal to every later result's score. -/
theorem search_scores_nonincreasing (st : Store) (query : ℕ → ℚ) (k : ℕ) :
    (search st query k).Pairwise (fun a b => b.score ≤ a.score) := by
  unfold search
  apply List.Pairwise.map (R := fun i j => scores st query j ≤ scores st query i)
  · intro a b hab
    exact toFixed1_mono (by nlinarith [hab])
  · exact ((rankIndices_sorted (scores st query) st.meta.length).sublist
      (List.take_sublist k _))

/-- A strictly increasing index pair below `n` forms a sublist of `range n`. -/
lemma pair_sublist_range {i j n : ℕ} (hij : i < j) (hj : j < n) :
    [i, j].Sublist (List.range n) := by
  have h1 : [i, j].Sublist (List.range (j + 1)) := by
    rw [List.range_succ]
    have : [i].Sublist (List.range j) :=
      List.singleton_sublist.mpr (List.mem_range.mpr hij)
    simpa using this.append (List.Sublist.refl [j])
  exact h1.trans (List.range_sublist.mpr hj)

/-- C10: the ranking is a stable sort on the ascending index list, so two
items with equal dot-product scores keep their catalog order: the smaller
original index is ranked first, and (with `k` at least the catalog size, so
that both survive the `slice`) its response object precedes the other's in
the value `search` returns. -/
theorem search_tiebreak_by_index (st : Store) (query : ℕ → ℚ) (k i j : ℕ)
    (hij : i < j) (hj : j < st.meta.length) (hk : st.meta.length ≤ k)
    (heq : scores st query i = scores st query j) :
    [i, j].Sublist (rankIndices (scores st query) st.meta.length) ∧
      [mkResult st (scores st query) i, mkResult st (scores st query) j].Sublist
        (search st query k) := by
  have hpair : [i, j].Sublist (rankIndices (scores st query) st.meta.length) := by
    apply List.pair_sublist_mergeSort (cmp_trans _) (cmp_total _)
    · simp [heq]
    · exact pair_sublist_range hij hj
  refine ⟨hpair, ?_⟩
  unfold search
  have hlen : (rankIndices (scores st query) st.meta.length).length ≤ k := by
    simp [rankIndices, hk]
  rw [List.take_of_length_le hlen]
  simpa using hpair.map (mkResult st (scores st query))

/-- A catalog of two identical items with all-zero embeddings. -/
def stPair : Store := ⟨[⟨"1", "h", "t", "u"⟩, ⟨"2", "h2", "t2", "u2"⟩], fun _ => 0⟩

/-- The all-zero query vector. -/
def qZero : ℕ → ℚ := fun _ => 0

lemma scores_stPair (i : ℕ) : scores stPair qZero i = 0 := by
  simp [scores, dotProduct, stPair, qZero]

/-- Concrete instance of `search_tiebreak_by_index`: with two equal-scoring
items, index `0` is ranked before index `1`. -/
theorem search_tiebreak_by_index_witness :
    (0 : ℕ) < 1 ∧ (1 : ℕ) < stPair.meta.length ∧ stPair.meta.length ≤ 2 ∧
      scores stPair qZero 0 = scores stPair qZero 1 ∧
      ([0, 1].Sublist (rankIndices (scores stPair qZero) stPair.meta.length) ∧
        [mkResult stPair (scores stPair qZero) 0,
          mkResult stPair (scores stPair qZero) 1].Sublist (search stPair qZero 2)) :=
  ⟨by norm_num, by simp [stPair], by simp [stPair], by simp [scores_stPair],
    search_tiebreak_by_index stPair qZero 2 0 1 (by norm_num) (by simp [stPair])
      (by simp [stPair]) (by simp [scores_stPair])⟩

lemma toFixed1_bounds {q : ℚ} (h1 : -100 ≤ q) (h2 : q ≤ 100) :
    -100 ≤ toFixed1 q ∧ toFixed1 q ≤ 100 := by
  unfold toFixed1
  have hfl : ((⌊q * 10 + 1 / 2⌋ : ℤ) : ℚ) ≤ q * 10 + 1 / 2 := Int.floor_le _
  have hup : (-1000 : ℤ) ≤ ⌊q * 10 + 1 / 2⌋ := Int.le_floor.mpr (by push_cast; linarith)
  have hdn : ⌊q * 10 + 1 / 2⌋ ≤ 1000 := by
    by_contra hc
    push_neg at hc
    have h1001 : (1001 : ℤ) ≤ ⌊q * 10 + 1 / 2⌋ := hc
    have : (1001 : ℚ) ≤ ((⌊q * 10 + 1 / 2⌋ : ℤ) : ℚ) := by exact_mod_cast h1001
    linarith
  have hupq : (-1000 : ℚ) ≤ ((⌊q * 10 + 1 / 2⌋ : ℤ) : ℚ) := by exact_mod_cast hup
  have hdnq : ((⌊q * 10 + 1 / 2⌋ : ℤ) : ℚ) ≤ 1000 := by exact_mod_cast hdn
  constructor <;> linarith

/-- C4: every returned `score` is the dot-product score scaled by 100 and
rounded to one decimal, and for unit-norm query and catalog rows it lies in
`[-100, 100]`. -/
theorem search_score_rounded_and_bounded (st : Store) (query : ℕ → ℚ) (k : ℕ)
    (hq : ∑ j ∈ Finset.range 512, query j ^ 2 = 1)
    (hemb : ∀ i < st.meta.length,
      ∑ j ∈ Finset.range 512, st.embeddings (i * 512 + j) ^ 2 = 1) :
    ∀ r ∈ search st query k,
      (∃ i < st.meta.length, r.score = toFixed1 (scores st query i * 100)) ∧
        -100 ≤ r.score ∧ r.score ≤ 100 := by
  intro r hr
  unfold search at hr
  obtain ⟨i, hi, rfl⟩ := List.mem_map.mp hr
  have hmem : i ∈ rankIndices (scores st query) st.meta.length := List.mem_of_mem_take hi
  have hin : i < st.meta.length := by
    unfold rankIndices at hmem
    simpa using List.mem_mergeSort.mp hmem
  have hcs := Finset.sum_mul_sq_le_sq_mul_sq (Finset.range 512) query
    (fun j => st.embeddings (i * 512 + j))
  rw [hq, hemb i hin] at hcs
  have hdot : scores st query i ^ 2 ≤ 1 := by
    simpa [scores, dotProduct] using hcs
  have hlo : -1 ≤ scores st query i := by nlinarith [hdot]
  have hhi : scores st query i ≤ 1 := by nlinarith [hdot]
  have hb := toFixed1_bounds (q := scores st query i * 100) (by linarith) (by linarith)
  exact ⟨⟨i, hin, rfl⟩, hb.1, hb.2⟩

/-- A one-item catalog whose single embedding row is the first standard
basis vector. -/
def stUnit : Store := ⟨[⟨"1", "h", "t", "u"⟩], fun n => if n = 0 then 1 else 0⟩

/-- The first standard basis vector as a query. -/
def qUnit : ℕ → ℚ := fun j => if j = 0 then 1 else 0

lemma qUnit_norm : ∑ j ∈ Finset.range 512, qUnit j ^ 2 = 1 := by
  simp [qUnit]

lemma stUnit_rows : ∀ i < stUnit.meta.length,
    ∑ j ∈ Finset.range 512, stUnit.embeddings (i * 512 + j) ^ 2 = 1 := by
  intro i hi
  have hi0 : i = 0 := by
    simpa [stUnit] using hi
  subst hi0
  simp [stUnit]

/-- Concrete instance of `search_score_rounded_and_bounded` on a one-item
unit-vector catalog queried with a unit vector. -/
theorem search_score_rounded_and_bounded_witness :
    (∑ j ∈ Finset.range 512, qUnit j ^ 2 = 1) ∧
      (∀ i < stUnit.meta.length,
        ∑ j ∈ Finset.range 512, stUnit.embeddings (i * 512 + j) ^ 2 = 1) ∧
      ∀ r ∈ search stUnit qUnit 20,
        (∃ i < stUnit.meta.length, r.score = toFixed1 (scores stUnit qUnit i * 100)) ∧
          -100 ≤ r.score ∧ r.score ≤ 100 :=
  ⟨qUnit_norm, stUnit_rows,
    search_score_rounded_and_bounded stUnit qUnit 20 qUnit_norm stUnit_rows⟩

/-! ### Inference adapter: output extraction and normalization
(src/server.js lines 55–58) -/

/-- Line 57's accumulator: `emb.reduce((s, v) => s + v * v, 0)`, the squared
L2 norm of the raw vector. -/
def normSq (v : List ℚ) : ℚ := v.foldl (fun s x => s + x * x) 0

/-- Lines 57–58 of `embed`: compute the norm with the host's `Math.sqrt`
(modelled as an uninterpreted function `sq` on rationals) and divide every
component by it.  The `Option` result is the request-level failure channel
the error taxonomy demands; the source has no failure branch here, so the
function always returns `some`. -/
def embedNormalize (sq : ℚ → ℚ) (raw : List ℚ) : Option (List ℚ) :=
  some (raw.map (fun v => v / sq (normSq raw)))

lemma normSq_replicate_zero (n : ℕ) : normSq (List.replicate n 0) = 0 := by
  have h : ∀ (k : ℕ) (a : ℚ), (List.replicate k (0 : ℚ)).foldl (fun s x => s + x * x) a = a := by
    intro k
    induction k with
    | zero => intro a; rfl
    | succ j ih => intro a; simp [List.replicate_succ, List.foldl_cons, ih]
  simpa [normSq] using h n 0

/-- C5 counterexample: the all-zero raw vector has zero norm, yet
`embedNormalize` still returns a vector instead of failing — the code never
checks the norm before dividing. -/
theorem embedNormalize_zero_norm_counterexample :
    normSq (List.replicate 512 0) = 0 ∧
      (embedNormalize (fun _ => 0) (List.replicate 512 0)).isSome = true :=
  ⟨normSq_replicate_zero 512, rfl⟩

/-- C5 amended: `embed` divides every component of the raw vector by the
computed norm and always returns the quotient vector; a zero (or otherwise
degenerate) norm is not detected and no degenerate-vector error is ever
signalled. -/
theorem embedNormalize_divides_unconditionally (sq : ℚ → ℚ) (raw : List ℚ) :
    ∃ v : List ℚ, embedNormalize sq raw = some v ∧ v.length = raw.length ∧
      ∀ i, i < raw.length → v.getD i 0 = raw.getD i 0 / sq (normSq raw) := by
  refine ⟨raw.map (fun v => v / sq (normSq raw)), rfl, by simp, ?_⟩
  intro i hi
  rw [List.getD_eq_getElem?_getD, List.getD_eq_getElem?_getD, List.getElem?_map,
    List.getElem?_eq_getElem hi]
  rfl

/-- Concrete instance of `embedNormalize_divides_unconditionally` at the raw
vector `[3, 4]` with a host square root returning `5`. -/
theorem embedNormalize_divides_unconditionally_witness :
    ∃ v : List ℚ, embedNormalize (fun _ => 5) [3, 4] = some v ∧
      v.length = ([3, 4] : List ℚ).length ∧
      ∀ i, i < ([3, 4] : List ℚ).length →
        v.getD i 0 = ([3, 4] : List ℚ).getD i 0 / (fun _ => (5 : ℚ)) (normSq [3, 4]) :=
  embedNormalize_divides_unconditionally (fun _ => 5) [3, 4]

/-- Line 56: `Object.values(res)[0].data` — the embedding is taken from the
first property of the model's result object, whatever its name; only an
empty result set has no first value. -/
def extractFirst (res : List (String × List ℚ)) : Option (List ℚ) :=
  res.head?.map Prod.snd

/-- C6 counterexample: there is no fixed output key whose lookup describes
the extraction — singleton result sets keyed `"out0"` and `"out1"` both
succeed, so whichever key were claimed as the validated one, a result set
lacking it is still accepted. -/
theorem extractFirst_no_fixed_key :
    ¬ ∃ key : String, ∀ res : List (String × List ℚ),
        extractFirst res = res.lookup key := by
  rintro ⟨key, h⟩
  by_cases hk : key = "out0"
  · have h2 := h [("out1", [2])]
    subst hk
    simp [extractFirst, List.lookup] at h2
  · have h1 := h [("out0", [1])]
    have hne : ((key == "out0") = false) := beq_eq_false_iff_ne.mpr hk
    simp [extractFirst, List.lookup, hne] at h1

/-- C6 amended: the adapter uses the first output value of the result set
regardless of its key — any singleton result yields its value, the empty
result set is the only failing one, and renaming the key changes nothing. -/
theorem extractFirst_takes_first_value (k k' : String) (v : List ℚ)
    (rest : List (String × List ℚ)) :
    extractFirst ((k, v) :: rest) = some v ∧
      extractFirst ([] : List (String × List ℚ)) = none ∧
      extractFirst ((k, v) :: rest) = extractFirst ((k', v) :: rest) :=
  ⟨rfl, rfl, rfl⟩

/-! ### Startup load of the embedding blob (src/server.js lines 35–44) -/

/-- Node's `buf.readUInt16LE(off)` (line 39): a little-endian 16-bit read
that throws `ERR_OUT_OF_RANGE` (`none`) when fewer than two bytes remain. -/
def readUInt16LE (bin : List ℕ) (off : ℕ) : Option ℕ :=
  if off + 2 ≤ bin.length then some (bin.getD off 0 + 256 * bin.getD (off + 1) 0) else none

/-- The decode loop of `init` (lines 38–44): read and decode `count`
consecutive half-float words starting at word index `i`. -/
def readHalves (bin : List ℕ) : ℕ → ℕ → Option (List HalfVal)
  | _, 0 => some []
  | i, count + 1 =>
    match readUInt16LE bin (i * 2) with
    | none => none
    | some h => (readHalves bin (i + 1) count).map (fun rest => decodeHalf h :: rest)

/-- `init`'s embedding load: decode `meta.length * 512` half-floats from the
blob.  The source performs no size validation of its own; only Node's
per-read bounds check can stop it. -/
def initLoad (metaLen : ℕ) (bin : List ℕ) : Option (List HalfVal) :=
  readHalves bin 0 (metaLen * 512)

lemma readHalves_isSome (bin : List ℕ) : ∀ count i,
    (readHalves bin i count).isSome = true ↔
      (count = 0 ∨ (i + count) * 2 ≤ bin.length) := by
  intro count
  induction count with
  | zero =>
    intro i
    simp [readHalves]
  | succ k ih =>
    intro i
    by_cases hb : i * 2 + 2 ≤ bin.length
    · have hr : readUInt16LE bin (i * 2) =
          some (bin.getD (i * 2) 0 + 256 * bin.getD (i * 2 + 1) 0) := by
        simp [readUInt16LE, hb]
      simp only [readHalves, hr, Option.isSome_map', ih (i + 1)]
      omega
    · have hr : readUInt16LE bin (i * 2) = none := by
        simp [readUInt16LE, hb]
      simp only [readHalves, hr, Option.isSome_none, Bool.false_eq_true, false_iff]
      omega

/-- C7 counterexample: with one metadata entry and a 1026-byte blob —
a size mismatch, since `1 * 512 * 2 = 1024` — the load still succeeds, so
the engine becomes ready with a size-mismatched catalog instead of failing
with a configuration error. -/
theorem initLoad_accepts_oversized_blob :
    (List.replicate 1026 0 : List ℕ).length ≠ 1 * 512 * 2 ∧
      (initLoad 1 (List.replicate 1026 0)).isSome = true := by
  constructor
  · rw [List.length_replicate]
    omega
  · rw [initLoad, readHalves_isSome]
    right
    rw [List.length_replicate]
    omega

/-- C7 amended: startup fails during the decode loop iff the blob holds
fewer than `metadata.length * 512 * 2` bytes — and then with Node's
out-of-range read error, not a dedicated `ConfigurationError`; any blob at
least that long (in particular an oversized, mismatched one) is accepted and
the engine becomes ready. -/
theorem initLoad_succeeds_iff (metaLen : ℕ) (bin : List ℕ) :
    (initLoad metaLen bin).isSome = true ↔ metaLen * 512 * 2 ≤ bin.length := by
  rw [initLoad, readHalves_isSome]
  omega

/-! ### Image preprocessor (src/server.js lines 7–8, 51–54) -/

/-- CLIP per-channel means (line 7). -/
def MEAN : ℕ → ℚ
  | 0 => 0.48145466
  | 1 => 0.4578275
  | _ => 0.40821073

/-- CLIP per-channel standard deviations (line 8). -/
def STD : ℕ → ℚ
  | 0 => 0.26862954
  | 1 => 0.26130258
  | _ => 0.27577711

/-- The value line 54 stores for channel `c` at pixel `i`:
`(data[i*3+c] / 255 - MEAN[c]) / STD[c]`. -/
def tensorVal (data : ℕ → ℚ) (c i : ℕ) : ℚ := (data (i * 3 + c) / 255 - MEAN c) / STD c

/-- The inner channel loop of lines 53–54 at pixel `i`: write the three
channel values at offsets `c * 224 * 224 + i`. -/
def channelWrites (data : ℕ → ℚ) (i : ℕ) (f : ℕ → ℚ) : ℕ → ℚ :=
  (List.range 3).foldl (fun g c => Function.update g (c * (224 * 224) + i) (tensorVal data c i)) f

/-- Lines 52–54: the zero-initialised `Float32Array(3 * 224 * 224)` filled
by the nested pixel/channel loops, modelled pointwise. -/
def preprocess (data : ℕ → ℚ) : ℕ → ℚ :=
  (List.range (224 * 224)).foldl (fun f i => channelWrites data i f) (fun _ => 0)

lemma channelWrites_eq (data : ℕ → ℚ) (i : ℕ) (f : ℕ → ℚ) :
    channelWrites data i f =
      Function.update (Function.update (Function.update f
        (0 * (224 * 224) + i) (tensorVal data 0 i))
        (1 * (224 * 224) + i) (tensorVal data 1 i))
        (2 * (224 * 224) + i) (tensorVal data 2 i) := rfl

lemma preprocess_aux (data : ℕ → ℚ) :
    ∀ n, n ≤ 224 * 224 → ∀ c, c < 3 → ∀ i, i < 224 * 224 →
      ((List.range n).foldl (fun f p => channelWrites data p f) (fun _ => 0))
          (c * (224 * 224) + i) =
        if i < n then tensorVal data c i else 0 := by
  intro n
  induction n with
  | zero =>
    intro _ c _ i _
    simp
  | succ k ih =>
    intro hk c hc i hi
    rw [List.range_succ, List.foldl_append, List.foldl_cons, List.foldl_nil, channelWrites_eq]
    have hprev := ih (by omega) c hc i hi
    by_cases hik : i = k
    · subst hik
      rw [if_pos (by omega)]
      interval_cases c
      · rw [Function.update_apply, if_neg (by omega), Function.update_apply, if_neg (by omega),
          Function.update_apply, if_pos rfl]
      · rw [Function.update_apply, if_neg (by omega), Function.update_apply, if_pos rfl]
      · rw [Function.update_apply, if_pos rfl]
    · rw [Function.update_apply, if_neg (by omega), Function.update_apply, if_neg (by omega),
        Function.update_apply, if_neg (by omega), hprev]
      by_cases hik2 : i < k
      · rw [if_pos hik2, if_pos (by omega)]
      · rw [if_neg hik2, if_neg (by omega)]

/-- C8: the preprocessor lays the tensor out channel-major and row-major
within each channel — the element for channel `c` at pixel position `i`
sits at flat index `c * 224 * 224 + i` and equals
`(pixel / 255 - MEAN[c]) / STD[c]` for the interleaved input pixel
`data[i * 3 + c]`. -/
theorem preprocess_layout (data : ℕ → ℚ) (c i : ℕ) (hc : c < 3) (hi : i < 224 * 224) :
    preprocess data (c * (224 * 224) + i) = (data (i * 3 + c) / 255 - MEAN c) / STD c := by
  unfold preprocess
  rw [preprocess_aux data (224 * 224) (le_refl _) c hc i hi, if_pos hi]
  rfl

/-- Concrete instance of `preprocess_layout` at channel 1, pixel 2, on the
all-zero decoded image. -/
theorem preprocess_layout_witness :
    (1 : ℕ) < 3 ∧ (2 : ℕ) < 224 * 224 ∧
      preprocess (fun _ => 0) (1 * (224 * 224) + 2) = ((0 : ℚ) / 255 - MEAN 1) / STD 1 :=
  ⟨by norm_num, by norm_num, preprocess_layout (fun _ => 0) 1 2 (by norm_num) (by norm_num)⟩

/-! ### The store is read-only after startup (src/server.js lines 61–70) -/

/-- One inbound request: a similarity search (preprocessed query and `topK`)
or the normalization tail of `embed` (raw model output and host sqrt). -/
inductive Request where
  | searchReq (query : ℕ → ℚ) (k : ℕ)
  | embedReq (sq : ℚ → ℚ) (raw : List ℚ)

/-- The request's result. -/
inductive Response where
  | ranked (rs : List RankedResult)
  | vector (v : Option (List ℚ))

/-- Handling one request, with the module globals (`meta`, `embeddings`)
threaded explicitly: `search` writes only its request-local `scores` array
and result list, `embed` only its local tensors, so the store component
comes back unchanged. -/
def handleRequest (st : Store) : Request → Store × Response
  | .searchReq query k => (st, .ranked (search st query k))
  | .embedReq sq raw => (st, .vector (embedNormalize sq raw))

/-- A service trace: handle the requests in order, threading the store. -/
def runRequests (st : Store) : List Request → Store × List Response
  | [] => (st, [])
  | r :: rs =>
    let p := handleRequest st r
    let q := runRequests p.1 rs
    (q.1, p.2 :: q.2)

lemma handleRequest_fst (st : Store) (r : Request) : (handleRequest st r).1 = st := by
  cases r <;> rfl

lemma runRequests_eq (st : Store) : ∀ rs : List Request,
    runRequests st rs = (st, rs.map (fun r => (handleRequest st r).2)) := by
  intro rs
  induction rs with
  | nil => rfl
  | cons r rs ih => simp [runRequests, handleRequest_fst, ih]

/-- C9: after construction the store is never mutated — every single call
returns it unchanged, any sequence of `search`/`embed` calls leaves it
unchanged, and every response along the trace is computed from the original
store, as if it were shared read-only. -/
theorem store_never_mutated (st : Store) (rs : List Request) :
    (∀ r, (handleRequest st r).1 = st) ∧
      (runRequests st rs).1 = st ∧
      (runRequests st rs).2 = rs.map (fun r => (handleRequest st r).2) := by
  refine ⟨handleRequest_fst st, ?_, ?_⟩ <;> simp [runRequests_eq]

end VisualSearch
